import Mathlib

/-!
Verification of the obsidian.py node/player/queue core against its
natural-language specification.

The Python source is shallowly embedded: Python `dict` values (which preserve
insertion order) become association lists with explicit insert/erase
operations, `deque`/`list` sequences become `List`, Python `float` values in
the player become `Rat`, Python integers become `Int`/`Nat`, and fallible
operations return `Except` or carry an `Option` error component when the
exception must leave an observable mutated state behind (as with
`dict`-mutation during iteration).
-/

namespace Obsidian

/-- Python exception kinds relevant to the embedded code paths. -/
inductive PyErr
  | indexError
  | keyError
  | valueError
  | runtimeError
  | queueFull
  | nodeAlreadyExists
  deriving DecidableEq, Repr

/-! ## Python dict as an insertion-ordered association list -/

/-- `d[k] = v` on a Python dict: replace in place when the key is present
(keeping its position), otherwise append at the end. -/
def dictInsert {κ β : Type} [BEq κ] (d : List (κ × β)) (k : κ) (v : β) :
    List (κ × β) :=
  if (d.lookup k).isSome then
    d.map (fun kv => if kv.1 == k then (k, v) else kv)
  else
    d ++ [(k, v)]

/-- `del d[k]` / removal of every entry with key `k` (on well-formed dict
lists keys are unique, so at most one entry is removed). -/
def dictErase {κ β : Type} [BEq κ] (d : List (κ × β)) (k : κ) :
    List (κ × β) :=
  d.filter (fun kv => !(kv.1 == k))

/-- `d.update(e)` on Python dicts: insert every entry of `e` in order. -/
def dictUpdate {κ β : Type} [BEq κ] (d e : List (κ × β)) : List (κ × β) :=
  e.foldl (fun acc kv => dictInsert acc kv.1 kv.2) d

/-! ## Python sequence indexing -/

/-- Python sequence subscription `xs[i]`: a negative index counts from the
end; out-of-range access yields `none` (an `IndexError` at the call site). -/
def pyGetElem {α : Type} (xs : List α) (i : Int) : Option α :=
  let j : Int := if i < 0 then i + xs.length else i
  if 0 ≤ j then xs.get? j.toNat else none

/-- `list.insert(i, x)` / `deque.insert(i, x)`: the index is clamped to the
valid range, so insertion always succeeds and grows the sequence by one. -/
def pyInsertElem {α : Type} (xs : List α) (i : Int) (t : α) : List α :=
  let j : Int := if i < 0 then max 0 (i + xs.length) else min i xs.length
  xs.take j.toNat ++ t :: xs.drop j.toNat

/-- `del xs[i]`: delete the element at a (possibly negative) index, or fail
with `IndexError` when out of range. -/
def pyDelElem {α : Type} (xs : List α) (i : Int) : Option (List α) :=
  let j : Int := if i < 0 then i + xs.length else i
  if 0 ≤ j ∧ j < xs.length then some (xs.eraseIdx j.toNat) else none

/-! ## queue.py — `Queue` -/

/-- State of `obsidian.queue.Queue`: the optional `max_size` bound passed to
the constructor and the internal deque of tracks.  `max_size` is a track
count, embedded as `Nat`. -/
structure PyQueue (α : Type) where
  maxSize : Option Nat
  queue : List α
  deriving DecidableEq, Repr

/-- `Queue.full`: `False` when unbounded, otherwise `count >= max_size`. -/
def qFull {α : Type} (q : PyQueue α) : Bool :=
  match q.maxSize with
  | none => false
  | some n => n ≤ q.queue.length

/-- `Queue.add(track, left=...)` for a single track: raises `QueueFull` when
the queue is full, otherwise appends (or prepends when `left`). -/
def qAdd {α : Type} (q : PyQueue α) (t : α) (left : Bool) :
    Except PyErr (PyQueue α) :=
  if qFull q then .error .queueFull
  else .ok { q with queue := if left then t :: q.queue else q.queue ++ [t] }

/-- `Queue.insert(index, track)`: raises `QueueFull` when full, otherwise
inserts at the (clamped) index. -/
def qInsert {α : Type} (q : PyQueue α) (i : Int) (t : α) :
    Except PyErr (PyQueue α) :=
  if qFull q then .error .queueFull
  else .ok { q with queue := pyInsertElem q.queue i t }

/-- `Queue.remove(index)`: `del queue[index]`, `IndexError` when invalid. -/
def qRemoveIdx {α : Type} (q : PyQueue α) (i : Int) :
    Except PyErr (PyQueue α) :=
  match pyDelElem q.queue i with
  | some l => .ok { q with queue := l }
  | none => .error .indexError

/-- `Queue.remove(track)`: linear search removal of the first occurrence;
`ValueError` when the track is absent. -/
def qRemoveTrack {α : Type} [DecidableEq α] (q : PyQueue α) (t : α) :
    Except PyErr (PyQueue α) :=
  if t ∈ q.queue then .ok { q with queue := q.queue.erase t }
  else .error .valueError

/-- `Queue.pop(index)`: read the element at the index then delete it
(`popleft` for 0, right `pop` for -1, read-then-del otherwise; all three
agree with read-then-delete at the normalized index). -/
def qPop {α : Type} (q : PyQueue α) (i : Int) :
    Except PyErr (α × PyQueue α) :=
  match pyGetElem q.queue i, pyDelElem q.queue i with
  | some t, some l => .ok (t, { q with queue := l })
  | _, _ => .error .indexError

/-- `Queue.clear()`. -/
def qClear {α : Type} (q : PyQueue α) : PyQueue α :=
  { q with queue := [] }

/-- `Queue.extend(tracks)`: `add` each track in order; a `QueueFull` raised
mid-way leaves the earlier additions in place (partial mutation). -/
def qExtend {α : Type} (q : PyQueue α) : List α → PyQueue α × Option PyErr
  | [] => (q, none)
  | t :: rest =>
    match qAdd q t false with
    | .ok q1 => qExtend q1 rest
    | .error e => (q, some e)

/-- A single caller-visible mutating operation on a `Queue`. -/
inductive QOp (α : Type)
  | add (t : α) (left : Bool)
  | insert (i : Int) (t : α)
  | extend (ts : List α)
  | removeIdx (i : Int)
  | removeTrack (t : α)
  | pop (i : Int)
  | clear

/-- Run one operation; when the operation raises, the caller observes the
queue in the state it had at raise time (unchanged except for a partial
`extend`). -/
def applyOp {α : Type} [DecidableEq α] (q : PyQueue α) : QOp α → PyQueue α
  | .add t left =>
    match qAdd q t left with
    | .ok q1 => q1
    | .error _ => q
  | .insert i t =>
    match qInsert q i t with
    | .ok q1 => q1
    | .error _ => q
  | .extend ts => (qExtend q ts).1
  | .removeIdx i =>
    match qRemoveIdx q i with
    | .ok q1 => q1
    | .error _ => q
  | .removeTrack t =>
    match qRemoveTrack q t with
    | .ok q1 => q1
    | .error _ => q
  | .pop i =>
    match qPop q i with
    | .ok (_, q1) => q1
    | .error _ => q
  | .clear => qClear q

/-! ## queue.py — `PointerBasedQueue` -/

/-- `obsidian.queue.LoopType`. -/
inductive LoopType
  | NONE
  | TRACK
  | QUEUE
  deriving DecidableEq, Repr

/-- State of `obsidian.queue.PointerBasedQueue`: the inherited queue fields
plus the loop type and the nullable pointer `__current`. -/
structure PBQueue (α : Type) where
  maxSize : Option Nat
  tracks : List α
  loopType : LoopType
  current : Option Int
  deriving DecidableEq, Repr

/-- `PointerBasedQueue.get()`: initialize the pointer to 0 when null, else
advance it unless the loop type is TRACK; resolve the pointed element; on
`IndexError`, wrap to index 0 when the loop type is QUEUE (where a second
`IndexError` on an empty queue propagates uncaught), else return `None`. -/
def pbGet {α : Type} (q : PBQueue α) : Except PyErr (Option α) × PBQueue α :=
  let cur : Int :=
    match q.current with
    | none => 0
    | some c => if q.loopType = LoopType.TRACK then c else c + 1
  let q1 := { q with current := some cur }
  match pyGetElem q1.tracks cur with
  | some t => (.ok (some t), q1)
  | none =>
    if q1.loopType = LoopType.QUEUE then
      let q2 := { q1 with current := some 0 }
      match pyGetElem q2.tracks 0 with
      | some t => (.ok (some t), q2)
      | none => (.error .indexError, q2)
    else (.ok none, q1)

/-- `PointerBasedQueue.skip()`: like `get` but the pointer is always
initialized to 0 or incremented, regardless of the loop type. -/
def pbSkip {α : Type} (q : PBQueue α) : Except PyErr (Option α) × PBQueue α :=
  let cur : Int :=
    match q.current with
    | none => 0
    | some c => c + 1
  let q1 := { q with current := some cur }
  match pyGetElem q1.tracks cur with
  | some t => (.ok (some t), q1)
  | none =>
    if q1.loopType = LoopType.QUEUE then
      let q2 := { q1 with current := some 0 }
      match pyGetElem q2.tracks 0 with
      | some t => (.ok (some t), q2)
      | none => (.error .indexError, q2)
    else (.ok none, q1)

/-- Result of the `(n+1)`-th successive `get()` call starting from `q`. -/
def pbGetN {α : Type} (q : PBQueue α) : Nat → Except PyErr (Option α) × PBQueue α
  | 0 => pbGet q
  | n + 1 => pbGetN (pbGet q).2 n

/-- A fresh `PointerBasedQueue` holding exactly three tracks, with loop type
NONE and a never-advanced (null) pointer. -/
def pbq3 {α : Type} (a b c : α) : PBQueue α :=
  ⟨none, [a, b, c], .NONE, none⟩

/-! ## filters.py — `FilterSink` and filters -/

/-- Serialized (`to_raw`) filter payload shapes: a plain number
(`VolumeFilter`, `LowPassFilter`), a list of numbers (`Equalizer`), or an
object of named numbers (the remaining filters). -/
inductive Raw
  | num (q : Rat)
  | nums (xs : List Rat)
  | obj (fields : List (String × Rat))
  deriving DecidableEq, Repr

/-- A constructed `BaseFilter` instance: its Python class (`__class__`), its
object identity (`is`), its `identifier` key, and its `to_raw()` value. -/
structure BFilter where
  cls : String
  oid : Nat
  identifier : String
  raw : Raw
  deriving DecidableEq, Repr

/-- `VolumeFilter(volume)`: the setter rejects values above 5.0 or below
0.0 with `ValueError`; `identifier` is `'volume'` and `to_raw()` returns the
stored volume. -/
def mkVolumeFilter (oid : Nat) (volume : Rat) : Except PyErr BFilter :=
  if 5 < volume then .error .valueError
  else if volume < 0 then .error .valueError
  else .ok ⟨"VolumeFilter", oid, "volume", .num volume⟩

/-- The module-level `_FILTERS` tuple fixing the serialization order. -/
def FILTERS : List String :=
  ["volume", "timescale", "karaoke", "channel_mix", "vibrato",
   "rotation", "low_pass", "tremolo", "equalizer", "distortion"]

/-- State of `obsidian.filters.FilterSink`: the `__filters` dict keyed by
filter identifier. -/
structure FilterSink where
  filters : List (String × BFilter)
  deriving DecidableEq, Repr

/-- `FilterSink.add(filter)`: `self.__filters[filter.identifier] = filter`. -/
def sinkAdd (s : FilterSink) (f : BFilter) : FilterSink :=
  ⟨dictInsert s.filters f.identifier f⟩

/-- The argument forms accepted by `FilterSink.remove`: a string key, a
filter class, or a filter instance. -/
inductive RemoveArg
  | byStr (k : String)
  | byCls (cls : String)
  | byObj (oid : Nat)

/-- CPython iteration over `d.items()` with `del d[k]` in the loop body: the
iterator validates the dict's size at every `next()` call (including the
exhausting one), so the first deletion makes the following `next()` raise
`RuntimeError`.  Arguments: the match predicate, the remaining items of the
iterator's snapshot, the live dict state, and the dirty flag. -/
def dictIterDel (pr : BFilter → Bool) :
    List (String × BFilter) → List (String × BFilter) → Bool →
    List (String × BFilter) × Option PyErr
  | [], st, dirty => if dirty then (st, some .runtimeError) else (st, none)
  | (k, f) :: rest, st, dirty =>
    if dirty then (st, some .runtimeError)
    else if pr f then dictIterDel pr rest (dictErase st k) true
    else dictIterDel pr rest st false

/-- `FilterSink.remove(identifier)`: a string key is deleted with a caught
`KeyError` (silent no-op when missing); a class or instance argument scans
`self.__filters.items()` and deletes matches during the iteration.  The
returned pair is the final dict state together with the escaping
exception, if any. -/
def sinkRemove (s : FilterSink) : RemoveArg → FilterSink × Option PyErr
  | .byStr k => (⟨dictErase s.filters k⟩, none)
  | .byCls c =>
    let r := dictIterDel (fun f => f.cls == c) s.filters s.filters false
    (⟨r.1⟩, r.2)
  | .byObj o =>
    let r := dictIterDel (fun f => f.oid == o) s.filters s.filters false
    (⟨r.1⟩, r.2)

/-- `str(guild_id)` for the optional guild id of `to_json`. -/
def pyStrOptInt (g : Option Int) : String :=
  match g with
  | none => "None"
  | some n => toString n

/-- `FilterSink.to_json(guild_id)`: walk `_FILTERS` in order, keeping the
kinds present in the sink, each serialized with `to_raw()`. -/
def sinkToJson (s : FilterSink) (guildId : Option Int) :
    String × List (String × Raw) :=
  (pyStrOptInt guildId,
    FILTERS.filterMap (fun key =>
      match s.filters.lookup key with
      | none => none
      | some f => some (key, f.raw)))

/-! ## pool.py — `_NodePool.initiate_node` -/

/-- A registered node, reduced to the fields the registry claim observes:
the (defaulted) identifier and an object identity distinguishing distinct
constructions. -/
structure NodeObj where
  identifier : String
  oid : Nat
  deriving DecidableEq, Repr

/-- `BaseNode.__init__`: `self._identifier = identifier or 'MAIN'` (both
`None` and the empty string are falsy). -/
def mkNodeIdentifier (identifier : Option String) : String :=
  match identifier with
  | none => "MAIN"
  | some s => if s = "" then "MAIN" else s

/-- State of `_NodePool`: the `_nodes` dict keyed by string identifier. -/
structure NodePool where
  nodes : List (String × NodeObj)
  deriving DecidableEq, Repr

/-- `identifier in self._nodes`, evaluated on the *raw* argument before any
defaulting: `None` never equals a string key of the registry. -/
def pyIdInNodes (p : NodePool) (identifier : Option String) : Bool :=
  match identifier with
  | none => false
  | some s => (p.nodes.lookup s).isSome

/-- `_NodePool.initiate_node`: duplicate check on the raw `identifier`
argument, then construct the node (applying the `'MAIN'` default) and store
it under `node.identifier`.  `oid` stands for the fresh object identity of
the constructed node. -/
def initiate_node (p : NodePool) (identifier : Option String) (oid : Nat) :
    Except PyErr (NodeObj × NodePool) :=
  if pyIdInNodes p identifier then .error .nodeAlreadyExists
  else
    let node : NodeObj := ⟨mkNodeIdentifier identifier, oid⟩
    .ok (node, ⟨dictInsert p.nodes node.identifier node⟩)

/-! ## http.py — `HTTPClient.request` -/

/-- A Python value appearing in request parameter dicts: a string or a list
of strings. -/
inductive PyVal
  | str (s : String)
  | strs (xs : List String)
  deriving DecidableEq, Repr

/-- The keyword arguments `HTTPClient.request` hands to
`session.request(**kwargs)`. -/
structure RequestKwargs where
  method : String
  url : String
  headers : Option (List (String × String))
  params : Option (List (String × PyVal))
  payload : Option (List (String × PyVal))
  deriving DecidableEq, Repr

/-- The local `_headers` dict the code builds: `{'Authorization': password}`
updated with the caller's headers when they are truthy (non-`None` and
non-empty). -/
def requestAuthHeaders (password : String)
    (headers : Option (List (String × String))) : List (String × String) :=
  match headers with
  | none => [("Authorization", password)]
  | some hs =>
    if hs = [] then [("Authorization", password)]
    else dictUpdate [("Authorization", password)] hs

/-- `HTTPClient.url` followed by `route.lstrip('/')`. -/
def requestUrl (host port route : String) : String :=
  "http://" ++ host ++ ":" ++ port ++ "/" ++ route.dropWhile (· = '/')

/-- The `kwargs` dict built by `HTTPClient.request` before the retry loop.
The code computes `_headers` (see `requestAuthHeaders`) but places the raw
`headers` argument into `kwargs`, so the computed value is unused. -/
def requestKwargs (password host port method route : String)
    (parameters : Option (List (String × PyVal)))
    (payload : Option (List (String × PyVal)))
    (headers : Option (List (String × String))) : RequestKwargs :=
  let _headers := requestAuthHeaders password headers
  { method := method
    url := requestUrl host port route
    headers := headers
    params := parameters
    payload := payload }

/-- `HTTPClient.load_tracks(identifier)`: a GET on `/loadtracks` with the
identifier parameter and no caller-supplied headers. -/
def load_tracks (password host port identifier : String) : RequestKwargs :=
  requestKwargs password host port "GET" "/loadtracks"
    (some [("identifier", .str identifier)]) none none

/-- A backend HTTP response: status code and parsed JSON body (abstracted
to a string). -/
structure HResponse where
  status : Nat
  body : String
  deriving DecidableEq, Repr

/-- Outcome of `HTTPClient.request`: the parsed payload of a 2xx response,
an `HTTPError` carrying the final response, or the `ValueError` for a retry
bound below 1. -/
inductive ReqOutcome
  | ok (body : String)
  | httpError (finalResponse : HResponse)
  | valueError
  deriving DecidableEq, Repr

/-- `200 <= status < 300`. -/
def is2xx (status : Nat) : Bool := 200 ≤ status && status < 300

/-- The retry loop of `HTTPClient.request`: `i` counts attempts already
made, `fuel` the remaining iterations of `range(max_retries)`; the
environment `resp` gives the response to the `i`-th attempt.  Returns the
outcome plus the total number of attempts performed. -/
def requestLoop (resp : Nat → HResponse) : Nat → Nat → ReqOutcome × Nat
  | i, 0 => (.httpError (resp (i - 1)), i)
  | i, fuel + 1 =>
    let r := resp i
    if is2xx r.status then (.ok r.body, i + 1)
    else requestLoop resp (i + 1) fuel

/-- `HTTPClient.request` reduced to its control flow: reject
`max_retries < 1`, then run the bounded retry loop. -/
def request (maxRetries : Nat) (resp : Nat → HResponse) : ReqOutcome × Nat :=
  if maxRetries < 1 then (.valueError, 0)
  else requestLoop resp 0 maxRetries

/-! ## player.py — `Player.set_position` -/

/-- The fields of a current track that `set_position` reads. -/
structure PTrack where
  length : Rat
  deriving DecidableEq, Repr

/-- The player state touched by `set_position`. -/
structure PlayerState where
  current : Option PTrack
  position : Rat
  lastUpdate : Rat
  deriving DecidableEq, Repr

/-- The `PLAYER_SEEK` payload's position field, `round(position)`. -/
structure SeekCommand where
  position : Int
  deriving DecidableEq, Repr

/-- Python `round` on a real number: round half to even.  The fractional
part of `q = num/den` (with `den > 0`) is `rem/den` with
`rem = num - floor * den`, and it is compared against one half by comparing
`2 * rem` with `den`. -/
def pyRound (q : Rat) : Int :=
  let f : Int := Int.fdiv q.num q.den
  let rem : Int := q.num - f * q.den
  if 2 * rem < (q.den : Int) then f
  else if (q.den : Int) < 2 * rem then f + 1
  else if f % 2 = 0 then f else f + 1

/-- `Player.set_position(position)`: the guard is the literal chained
comparison `not self._current or 0 > position > self._current.length`
(that is, `0 > position and position > length`); when it does not trigger,
a `PLAYER_SEEK` is sent and the local position and last-update timestamp
(`time.time() * 1000`, passed here as `nowMs`) are set. -/
def set_position (p : PlayerState) (position : Rat) (nowMs : Rat) :
    Option SeekCommand × PlayerState :=
  match p.current with
  | none => (none, p)
  | some tr =>
    if 0 > position ∧ position > tr.length then (none, p)
    else
      (some ⟨pyRound position⟩,
        { p with position := position, lastUpdate := nowMs })

/-! ## node.py — `BaseNode.get_player` -/

/-- A constructed player, reduced to its Python class and object identity
(fresh state is witnessed by a fresh `oid`). -/
structure PlayerObj where
  cls : String
  oid : Nat
  deriving DecidableEq, Repr

/-- The node state `get_player` touches: the `_players` dict keyed by guild
id, plus an allocation counter modelling fresh Python object identities. -/
structure NodeState where
  players : List (Nat × PlayerObj)
  nextOid : Nat
  deriving DecidableEq, Repr

/-- `BaseNode.get_player(guild, cls, must_exist)`: a missing player is
created and stored (unless `must_exist`); an existing player of a different
class causes a *new* instance of the requested class to be constructed and
returned, without writing it back into `self._players`. -/
def get_player (st : NodeState) (guild : Nat) (cls : String)
    (mustExist : Bool) : Option PlayerObj × NodeState :=
  match st.players.lookup guild with
  | none =>
    if mustExist then (none, st)
    else
      let player : PlayerObj := ⟨cls, st.nextOid⟩
      (some player, ⟨dictInsert st.players guild player, st.nextOid + 1⟩)
  | some player =>
    if player.cls ≠ cls then
      (some ⟨cls, st.nextOid⟩, { st with nextOid := st.nextOid + 1 })
    else (some player, st)

/-! ## Concrete states used as witnesses and counterexamples -/

/-- A node whose `_players` map holds one guild with a default `Player`. -/
def c9state : NodeState := ⟨[(1, ⟨"Player", 0⟩)], 1⟩

/-- A sink holding a single volume filter. -/
def sinkW : FilterSink := ⟨[("volume", ⟨"VolumeFilter", 0, "volume", .num 1⟩)]⟩

/-- A response environment failing once then succeeding. -/
def respW : Nat → HResponse := fun i =>
  if i = 0 then ⟨500, "err"⟩ else ⟨200, "good"⟩

/-- A response environment failing on every attempt. -/
def respB : Nat → HResponse := fun _ => ⟨500, "err"⟩

/-! # Theorems -/

/-! ## Association-list (Python dict) lemmas -/

theorem lookup_append_left_none {κ β : Type} [BEq κ] (d e : List (κ × β))
    (k : κ) (h : d.lookup k = none) : (d ++ e).lookup k = e.lookup k := by
  induction d with
  | nil => rfl
  | cons kv rest ih =>
    obtain ⟨k0, v0⟩ := kv
    cases hb : k == k0 with
    | true => simp [List.lookup, hb] at h
    | false =>
      simp [List.lookup, hb] at h ⊢
      exact ih h

theorem lookup_map_replace {κ β : Type} [BEq κ] [LawfulBEq κ]
    (d : List (κ × β)) (k : κ) (v : β) :
    (d.map (fun kv => if kv.1 == k then (k, v) else kv)).lookup k =
      (d.lookup k).map (fun _ => v) := by
  induction d with
  | nil => rfl
  | cons kv rest ih =>
    obtain ⟨k0, v0⟩ := kv
    by_cases hk : k0 = k
    · subst hk
      rw [List.map_cons, if_pos (by simp)]
      simp [List.lookup_cons]
    · have hb2 : (k == k0) = false := by
        simpa using fun he => hk he.symm
      rw [List.map_cons, if_neg (by simpa using hk)]
      simp [List.lookup_cons, hb2, ih]

theorem lookup_dictInsert_self {κ β : Type} [BEq κ] [LawfulBEq κ]
    (d : List (κ × β)) (k : κ) (v : β) :
    (dictInsert d k v).lookup k = some v := by
  unfold dictInsert
  by_cases h : (d.lookup k).isSome
  · obtain ⟨w, hw⟩ := Option.isSome_iff_exists.mp h
    rw [if_pos h, lookup_map_replace, hw]
    rfl
  · have hn : d.lookup k = none := Option.not_isSome_iff_eq_none.mp h
    rw [if_neg h, lookup_append_left_none d [(k, v)] k hn]
    simp [List.lookup_cons]

theorem lookup_dictErase_self {κ β : Type} [BEq κ] [LawfulBEq κ]
    (k : κ) : ∀ d : List (κ × β), (dictErase d k).lookup k = none := by
  intro d
  unfold dictErase
  induction d with
  | nil => rfl
  | cons kv rest ih =>
    obtain ⟨k0, v0⟩ := kv
    by_cases hk : k0 = k
    · subst hk
      simpa [List.filter_cons] using ih
    · have hb : (k0 == k) = false := by simpa using hk
      have hb2 : (k == k0) = false := by
        simpa using fun he => hk he.symm
      rw [List.filter_cons]
      simp only [hb, Bool.not_false, if_true]
      simpa [List.lookup_cons, hb2] using ih

theorem dictErase_of_lookup_none {κ β : Type} [BEq κ] [LawfulBEq κ]
    (k : κ) : ∀ d : List (κ × β), d.lookup k = none → dictErase d k = d := by
  intro d
  induction d with
  | nil => intro _; rfl
  | cons kv rest ih =>
    intro h
    obtain ⟨k0, v0⟩ := kv
    have hb : (k == k0) = false := by
      cases hb : k == k0 with
      | false => rfl
      | true =>
        rw [List.lookup_cons, hb] at h
        exact absurd h (by simp)
    have hrest : rest.lookup k = none := by
      rw [List.lookup_cons, hb] at h
      exact h
    have hb2 : (k0 == k) = false := by
      have hne : ¬ k = k0 := by simpa using hb
      simpa using fun he => hne he.symm
    unfold dictErase
    rw [List.filter_cons]
    simp only [hb2, Bool.not_false, if_true]
    have := ih hrest
    unfold dictErase at this
    rw [this]

theorem lookup_filterMap_keyed {β : Type} (g : String → Option β) (k : String) :
    ∀ keys : List String, keys.Nodup →
    (keys.filterMap (fun k2 => (g k2).map (fun v => (k2, v)))).lookup k =
      (if k ∈ keys then g k else none) := by
  intro keys
  induction keys with
  | nil => simp
  | cons k0 rest ih =>
    intro hnd
    obtain ⟨hk0, hrest⟩ := List.nodup_cons.mp hnd
    cases hg : g k0 with
    | none =>
      rw [List.filterMap_cons]
      simp only [hg, Option.map_none']
      rw [ih hrest]
      by_cases hk : k = k0
      · subst hk
        simp [hk0, hg]
      · simp [hk]
    | some v =>
      rw [List.filterMap_cons]
      simp only [hg, Option.map_some']
      by_cases hk : k = k0
      · subst hk
        simp [List.lookup_cons, hg]
      · have hb : (k == k0) = false := by simpa using hk
        simp [List.lookup_cons, hb, ih hrest, hk]

theorem map_fst_filterMap_keyed {β : Type} (g : String → Option β) :
    ∀ keys : List String,
    (keys.filterMap (fun k2 => (g k2).map (fun v => (k2, v)))).map Prod.fst =
      keys.filter (fun k2 => (g k2).isSome) := by
  intro keys
  induction keys with
  | nil => rfl
  | cons k0 rest ih =>
    rw [List.filterMap_cons]
    cases hg : g k0 with
    | none => simpa [List.filter, hg] using ih
    | some v => simpa [List.filter, hg] using ih

theorem sinkToJson_filters_eq (d : List (String × BFilter)) :
    (FILTERS.filterMap (fun key =>
      match d.lookup key with
      | none => none
      | some f => some (key, f.raw))) =
    FILTERS.filterMap (fun key =>
      ((d.lookup key).map BFilter.raw).map (fun v => (key, v))) := by
  have h : (fun key =>
      match d.lookup key with
      | none => none
      | some f => some (key, f.raw)) =
      (fun key => ((d.lookup key).map BFilter.raw).map
        (fun v : Raw => (key, v))) := by
    funext key
    cases d.lookup key <;> rfl
  rw [h]

/-! ## C1 — registry identifier uniqueness -/

/-- Claim C1 (refuted, code bug): `initiate_node` checks the raw `identifier`
argument against the registry before the `'MAIN'` default is applied, so a
second registration with the identifier omitted does not fail with
`AlreadyExists`: it succeeds and silently replaces the first node under the
key `'MAIN'`.  A duplicate that is passed explicitly is rejected. -/
theorem initiate_node_default_identifier_bug :
    initiate_node ⟨[]⟩ none 0 =
      .ok (⟨"MAIN", 0⟩, ⟨[("MAIN", ⟨"MAIN", 0⟩)]⟩) ∧
    initiate_node ⟨[("MAIN", ⟨"MAIN", 0⟩)]⟩ none 1 =
      .ok (⟨"MAIN", 1⟩, ⟨[("MAIN", ⟨"MAIN", 1⟩)]⟩) ∧
    initiate_node ⟨[("MAIN", ⟨"MAIN", 0⟩)]⟩ (some "MAIN") 1 =
      .error .nodeAlreadyExists := by
  refine ⟨rfl, rfl, rfl⟩

/-! ## C2 — Authorization header on REST requests -/

/-- Claim C2 (refuted, code bug): the kwargs actually passed to
`session.request` carry the caller's raw `headers` argument — `none` for
`load_tracks` and the other helpers — while the `_headers` dict that does
contain the `Authorization` entry is computed and then discarded, so no
request sends the shared secret. -/
theorem request_missing_authorization_header :
    (load_tracks "secret" "127.0.0.1" "3030" "abc").headers = none ∧
    requestAuthHeaders "secret" none = [("Authorization", "secret")] ∧
    ∀ hs : List (String × String),
      (requestKwargs "secret" "127.0.0.1" "3030" "GET" "/x"
        none none (some hs)).headers = some hs := by
  exact ⟨rfl, rfl, fun hs => rfl⟩

/-! ## C3 — set_position bounds check -/

/-- Claim C3 (refuted, code bug): the guard
`0 > position > self._current.length` is a Python chained comparison
(`0 > position and position > length`), never true for a track of
non-negative length; so an out-of-range position (here -5, then 200, on a
track of length 100) is *not* ignored: a `PLAYER_SEEK` is sent and the local
state updated.  Only the no-current-track case is ignored as claimed. -/
theorem set_position_out_of_range_not_ignored :
    set_position ⟨some ⟨100⟩, 0, 0⟩ (-5) 1234 =
      (some ⟨-5⟩, ⟨some ⟨100⟩, -5, 1234⟩) ∧
    set_position ⟨some ⟨100⟩, 0, 0⟩ 200 1234 =
      (some ⟨200⟩, ⟨some ⟨100⟩, 200, 1234⟩) ∧
    set_position ⟨none, 0, 0⟩ 50 1234 = (none, ⟨none, 0, 0⟩) := by
  refine ⟨?_, ?_, rfl⟩ <;> decide

/-! ## C4 — pointer queue round trip with loop NONE -/

theorem pbGet_exhausted {α : Type} (q : PBQueue α) (p : Int)
    (hl : q.loopType = .NONE) (hc : q.current = some p)
    (h0 : 0 ≤ p) (hp : (q.tracks.length : Int) ≤ p + 1) :
    pbGet q = (.ok none, { q with current := some (p + 1) }) := by
  have hj : ¬ (p + 1 < 0) := by omega
  have hj2 : (0 : Int) ≤ p + 1 := by omega
  have hnone : q.tracks[(p + 1).toNat]? = none :=
    List.getElem?_eq_none (by omega)
  simp [pbGet, hc, hl, pyGetElem, hj, hj2, hnone]

theorem pbGetN_succ {α : Type} (q : PBQueue α) (n : Nat) :
    pbGetN q (n + 1) = pbGetN (pbGet q).2 n := rfl

theorem pbGetN_exhausted {α : Type} :
    ∀ (m : Nat) (q : PBQueue α) (p : Int), q.loopType = .NONE →
    q.current = some p → 0 ≤ p → (q.tracks.length : Int) ≤ p + 1 →
    pbGetN q m = (.ok none, { q with current := some (p + 1 + m) }) := by
  intro m
  induction m with
  | zero =>
    intro q p hl hc h0 hp
    simpa [pbGetN] using pbGet_exhausted q p hl hc h0 hp
  | succ n ih =>
    intro q p hl hc h0 hp
    have h1 := pbGet_exhausted q p hl hc h0 hp
    rw [pbGetN_succ, h1]
    show pbGetN ({ q with current := some (p + 1) } : PBQueue α) n = _
    have h2 := ih { q with current := some (p + 1) } (p + 1) hl rfl
      (by omega)
      (by show (q.tracks.length : Int) ≤ p + 1 + 1; omega)
    rw [h2]
    have he : p + 1 + 1 + (n : Int) = p + 1 + ((n + 1 : Nat) : Int) := by
      push_cast
      ring
    rw [he]

/-- Claim C4 (confirmed): from a fresh three-track `PointerBasedQueue` with
loop NONE and a null pointer, successive `get()` calls return the three
tracks in order, then `None` forever; no `get()` ever changes the underlying
track sequence. -/
theorem pointer_queue_round_trip {α : Type} (a b c : α) :
    (pbGetN (pbq3 a b c) 0).1 = .ok (some a) ∧
    (pbGetN (pbq3 a b c) 1).1 = .ok (some b) ∧
    (pbGetN (pbq3 a b c) 2).1 = .ok (some c) ∧
    (pbGetN (pbq3 a b c) 3).1 = .ok none ∧
    (pbGetN (pbq3 a b c) 4).1 = .ok none ∧
    (∀ n : Nat, (pbGetN (pbq3 a b c) (n + 3)).1 = .ok none) ∧
    (∀ n : Nat, (pbGetN (pbq3 a b c) n).2.tracks = [a, b, c]) := by
  have s1 : pbGet (pbq3 a b c) =
      (.ok (some a), ⟨none, [a, b, c], .NONE, some 0⟩) := rfl
  have s2 : pbGet (⟨none, [a, b, c], .NONE, some 0⟩ : PBQueue α) =
      (.ok (some b), ⟨none, [a, b, c], .NONE, some 1⟩) := rfl
  have s3 : pbGet (⟨none, [a, b, c], .NONE, some 1⟩ : PBQueue α) =
      (.ok (some c), ⟨none, [a, b, c], .NONE, some 2⟩) := rfl
  have hkey : ∀ n : Nat, pbGetN (pbq3 a b c) (n + 3) =
      (.ok none, (⟨none, [a, b, c], .NONE, some (2 + 1 + n)⟩ : PBQueue α)) := by
    intro n
    have h := pbGetN_exhausted n
      (⟨none, [a, b, c], .NONE, some 2⟩ : PBQueue α) 2 rfl rfl
      (by omega) (by simp)
    calc pbGetN (pbq3 a b c) (n + 3)
        = pbGetN (pbGet (pbq3 a b c)).2 (n + 2) := pbGetN_succ _ (n + 2)
      _ = pbGetN (⟨none, [a, b, c], .NONE, some 0⟩ : PBQueue α) (n + 2) := by
          rw [s1]
      _ = pbGetN (pbGet (⟨none, [a, b, c], .NONE, some 0⟩ : PBQueue α)).2
            (n + 1) := pbGetN_succ _ (n + 1)
      _ = pbGetN (⟨none, [a, b, c], .NONE, some 1⟩ : PBQueue α) (n + 1) := by
          rw [s2]
      _ = pbGetN (pbGet (⟨none, [a, b, c], .NONE, some 1⟩ : PBQueue α)).2 n :=
          pbGetN_succ _ n
      _ = pbGetN (⟨none, [a, b, c], .NONE, some 2⟩ : PBQueue α) n := by
          rw [s3]
      _ = (.ok none, (⟨none, [a, b, c], .NONE, some (2 + 1 + n)⟩ : PBQueue α)) :=
          h
  refine ⟨?_, ?_, ?_, ?_, ?_, ?_, ?_⟩
  · simp [pbGetN, pbq3, pbGet, pyGetElem]
  · simp [pbGetN, pbq3, pbGet, pyGetElem]
  · simp [pbGetN, pbq3, pbGet, pyGetElem]
  · simp [pbGetN, pbq3, pbGet, pyGetElem]
  · simp [pbGetN, pbq3, pbGet, pyGetElem]
  · intro n
    rw [hkey n]
  · intro n
    rcases n with _ | _ | _ | m
    · simp [pbGetN, pbq3, pbGet, pyGetElem]
    · simp [pbGetN, pbq3, pbGet, pyGetElem]
    · simp [pbGetN, pbq3, pbGet, pyGetElem]
    · rw [hkey m]

/-! ## C5 — get under TRACK loop vs skip -/

/-- Claim C5 (counterexample): with two *equal* tracks under loop TRACK and
pointer 0, `skip()` does advance the pointer but returns exactly the track
`get()` keeps returning, so "skip changes the returned track" is false; and
with a single-track queue under loop QUEUE, `skip()` wraps around, leaving
even the pointer unchanged at 0. -/
theorem skip_returned_track_counterexample :
    (pbSkip (⟨none, [7, 7], .TRACK, some 0⟩ : PBQueue Nat)).1 =
      .ok (some 7) ∧
    (pbGet (⟨none, [7, 7], .TRACK, some 0⟩ : PBQueue Nat)).1 =
      .ok (some 7) ∧
    (pbSkip (⟨none, [7, 7], .TRACK, some 0⟩ : PBQueue Nat)).2.current =
      some 1 ∧
    (pbSkip (⟨none, [7], .QUEUE, some 0⟩ : PBQueue Nat)).2.current =
      some 0 ∧
    (pbSkip (⟨none, [7], .QUEUE, some 0⟩ : PBQueue Nat)).1 =
      .ok (some 7) := by
  refine ⟨rfl, rfl, rfl, rfl, rfl⟩

/-- Claim C5 (amended): under loop TRACK with an in-range pointer, `get()`
returns the pointed track and leaves the whole queue state (pointer
included) unchanged, so repeated calls return the same track; `skip()`
always moves the pointer — incrementing it here, or initializing it to 0
when null — and returns the track at the new pointer, which need not differ
from the previous one (e.g. duplicate tracks, or a QUEUE-loop wrap). -/
theorem track_loop_get_skip_amended {α : Type} (q : PBQueue α) (p : Int)
    (hl : q.loopType = .TRACK) (hc : q.current = some p)
    (h0 : 0 ≤ p) (hp : p < (q.tracks.length : Int)) :
    pbGet q = (.ok (pyGetElem q.tracks p), q) ∧
    pbSkip q = (.ok (pyGetElem q.tracks (p + 1)),
      { q with current := some (p + 1) }) ∧
    ∀ r : PBQueue α, r.current = none → (pbSkip r).2.current = some 0 := by
  obtain ⟨ms, tr, lt, cur⟩ := q
  dsimp only at hl hc hp
  subst hl
  subst hc
  refine ⟨?_, ?_, ?_⟩
  · have hlt : p.toNat < tr.length := by omega
    have ht : tr[p.toNat]? = some tr[p.toNat] :=
      List.getElem?_eq_getElem hlt
    have hpg : pyGetElem tr p = some tr[p.toNat] := by
      simp [pyGetElem, show ¬ (p < 0) by omega, ht, h0]
    simp [pbGet, hpg]
  · cases hpg : pyGetElem tr (p + 1) with
    | some t => simp [pbSkip, hpg]
    | none => simp [pbSkip, hpg]
  · intro r hr
    cases hpg2 : pyGetElem r.tracks 0 with
    | some t => simp [pbSkip, hr, hpg2]
    | none =>
      by_cases hQ : r.loopType = .QUEUE <;> simp [pbSkip, hr, hpg2, hQ]

/-- Witness for `track_loop_get_skip_amended` at a concrete queue. -/
theorem track_loop_get_skip_amended_witness :
    pbGet (⟨none, [3, 4], .TRACK, some 0⟩ : PBQueue Nat) =
      (.ok (some 3), ⟨none, [3, 4], .TRACK, some 0⟩) ∧
    pbSkip (⟨none, [3, 4], .TRACK, some 0⟩ : PBQueue Nat) =
      (.ok (some 4), ⟨none, [3, 4], .TRACK, some 1⟩) := by
  have h := track_loop_get_skip_amended
    (⟨none, [3, 4], .TRACK, some 0⟩ : PBQueue Nat) 0 rfl rfl
    (by omega) (by decide)
  refine ⟨?_, ?_⟩
  · rw [h.1]
    rfl
  · rw [h.2.1]
    rfl

/-! ## C6 — queue capacity invariant -/

theorem pyInsertElem_length {α : Type} (xs : List α) (i : Int) (t : α) :
    (pyInsertElem xs i t).length = xs.length + 1 := by
  simp [pyInsertElem]
  omega

theorem pyDelElem_length {α : Type} (xs : List α) (i : Int) (l : List α)
    (h : pyDelElem xs i = some l) : l.length ≤ xs.length := by
  have key : ∀ j : Int,
      (if 0 ≤ j ∧ j < (xs.length : Int) then some (xs.eraseIdx j.toNat)
        else none) = some l → l.length ≤ xs.length := by
    intro j hj
    by_cases hc : 0 ≤ j ∧ j < (xs.length : Int)
    · rw [if_pos hc] at hj
      obtain rfl : xs.eraseIdx j.toNat = l := Option.some.inj hj
      exact (List.eraseIdx_sublist xs _).length_le
    · rw [if_neg hc] at hj
      exact absurd hj (by simp)
  exact key _ h

theorem qAdd_ok_bound {α : Type} (n : Nat) (q : PyQueue α) (t : α)
    (left : Bool) (q1 : PyQueue α) (hm : q.maxSize = some n)
    (h : qAdd q t left = .ok q1) :
    q1.maxSize = some n ∧ q1.queue.length = q.queue.length + 1 ∧
      q.queue.length < n := by
  unfold qAdd at h
  by_cases hf : qFull q
  · rw [if_pos hf] at h
    exact absurd h (by simp)
  · rw [if_neg hf] at h
    obtain rfl : q1 =
        { q with queue := if left then t :: q.queue else q.queue ++ [t] } :=
      (Except.ok.inj h).symm
    unfold qFull at hf
    rw [hm] at hf
    simp at hf
    refine ⟨by simpa using hm, by cases left <;> simp, by omega⟩

theorem qInsert_ok_bound {α : Type} (n : Nat) (q : PyQueue α) (i : Int)
    (t : α) (q1 : PyQueue α) (hm : q.maxSize = some n)
    (h : qInsert q i t = .ok q1) :
    q1.maxSize = some n ∧ q1.queue.length = q.queue.length + 1 ∧
      q.queue.length < n := by
  unfold qInsert at h
  by_cases hf : qFull q
  · rw [if_pos hf] at h
    exact absurd h (by simp)
  · rw [if_neg hf] at h
    obtain rfl : q1 = { q with queue := pyInsertElem q.queue i t } :=
      (Except.ok.inj h).symm
    unfold qFull at hf
    rw [hm] at hf
    simp at hf
    refine ⟨by simpa using hm, by simpa using pyInsertElem_length q.queue i t,
      by omega⟩

theorem qExtend_preserves {α : Type} [DecidableEq α] (n : Nat) :
    ∀ (ts : List α) (q : PyQueue α), q.maxSize = some n →
    q.queue.length ≤ n →
    (qExtend q ts).1.maxSize = some n ∧ (qExtend q ts).1.queue.length ≤ n := by
  intro ts
  induction ts with
  | nil =>
    intro q hm hl
    exact ⟨hm, hl⟩
  | cons t rest ih =>
    intro q hm hl
    rcases hqa : qAdd q t false with e | q1
    · simpa [qExtend, hqa] using ⟨hm, hl⟩
    · obtain ⟨h1, h2, h3⟩ := qAdd_ok_bound n q t false q1 hm hqa
      simp only [qExtend, hqa]
      exact ih q1 h1 (by omega)

theorem applyOp_preserves {α : Type} [DecidableEq α] (n : Nat)
    (q : PyQueue α) (op : QOp α) (hm : q.maxSize = some n)
    (h : q.queue.length ≤ n) :
    (applyOp q op).maxSize = some n ∧ (applyOp q op).queue.length ≤ n := by
  cases op with
  | add t left =>
    rcases hqa : qAdd q t left with e | q1
    · simpa [applyOp, hqa] using ⟨hm, h⟩
    · obtain ⟨h1, h2, h3⟩ := qAdd_ok_bound n q t left q1 hm hqa
      simp only [applyOp, hqa]
      exact ⟨h1, by omega⟩
  | insert i t =>
    rcases hqi : qInsert q i t with e | q1
    · simpa [applyOp, hqi] using ⟨hm, h⟩
    · obtain ⟨h1, h2, h3⟩ := qInsert_ok_bound n q i t q1 hm hqi
      simp only [applyOp, hqi]
      exact ⟨h1, by omega⟩
  | extend ts =>
    simpa [applyOp] using qExtend_preserves n ts q hm h
  | removeIdx i =>
    rcases hqr : qRemoveIdx q i with e | q1
    · simpa [applyOp, hqr] using ⟨hm, h⟩
    · unfold qRemoveIdx at hqr
      cases hpd : pyDelElem q.queue i with
      | none =>
        rw [hpd] at hqr
        exact absurd hqr (by simp)
      | some l =>
        rw [hpd] at hqr
        obtain rfl : q1 = { q with queue := l } := (Except.ok.inj hqr).symm
        have := pyDelElem_length q.queue i l hpd
        simp only [applyOp, qRemoveIdx, hpd]
        exact ⟨by simpa using hm, by simpa using by omega⟩
  | removeTrack t =>
    rcases hqr : qRemoveTrack q t with e | q1
    · simpa [applyOp, hqr] using ⟨hm, h⟩
    · unfold qRemoveTrack at hqr
      by_cases hmem : t ∈ q.queue
      · rw [if_pos hmem] at hqr
        obtain rfl : q1 = { q with queue := q.queue.erase t } :=
          (Except.ok.inj hqr).symm
        have := (List.erase_sublist t q.queue).length_le
        simp only [applyOp, qRemoveTrack, if_pos hmem]
        exact ⟨by simpa using hm, by simpa using by omega⟩
      · rw [if_neg hmem] at hqr
        exact absurd hqr (by simp)
  | pop i =>
    rcases hqp : qPop q i with e | p1
    · simpa [applyOp, hqp] using ⟨hm, h⟩
    · obtain ⟨t0, q1⟩ := p1
      unfold qPop at hqp
      cases hg : pyGetElem q.queue i with
      | none =>
        rw [hg] at hqp
        exact absurd hqp (by simp)
      | some t1 =>
        cases hpd : pyDelElem q.queue i with
        | none =>
          rw [hg, hpd] at hqp
          exact absurd hqp (by simp)
        | some l =>
          rw [hg, hpd] at hqp
          have hp2 : (t1, ({ q with queue := l } : PyQueue α)) = (t0, q1) :=
            Except.ok.inj hqp
          obtain rfl : q1 = { q with queue := l } :=
            ((Prod.mk.injEq _ _ _ _).mp hp2).2.symm
          have := pyDelElem_length q.queue i l hpd
          simp only [applyOp, qPop, hg, hpd]
          exact ⟨by simpa using hm, by simpa using by omega⟩
  | clear =>
    simp [applyOp, qClear, hm]

/-- Claim C6 (confirmed): starting from an empty queue with `max_size = n`,
every sequence of add/insert/extend/remove/pop/clear operations keeps
`count ≤ n`; in particular a third `add` on a two-track queue with
`max_size = 2` raises `QueueFull` and leaves the queue unchanged. -/
theorem queue_capacity_invariant {α : Type} [DecidableEq α] (n : Nat)
    (ops : List (QOp α)) (t1 t2 t3 : α) :
    (ops.foldl applyOp ⟨some n, []⟩).queue.length ≤ n ∧
    qAdd (⟨some 2, [t1, t2]⟩ : PyQueue α) t3 false = .error .queueFull ∧
    applyOp (⟨some 2, [t1, t2]⟩ : PyQueue α) (.add t3 false) =
      ⟨some 2, [t1, t2]⟩ := by
  refine ⟨?_, rfl, rfl⟩
  have key : ∀ (os : List (QOp α)) (q : PyQueue α), q.maxSize = some n →
      q.queue.length ≤ n → (os.foldl applyOp q).queue.length ≤ n := by
    intro os
    induction os with
    | nil =>
      intro q hm hl
      simpa using hl
    | cons op rest ih =>
      intro q hm hl
      obtain ⟨h1, h2⟩ := applyOp_preserves n q op hm hl
      simpa using ih (applyOp q op) h1 h2
  exact key ops ⟨some n, []⟩ rfl (by simp)

/-! ## C7 — filter sink serialization -/

/-- Claim C7 (confirmed): `VolumeFilter(1.5)` is accepted and serializing
after `add` maps `'volume'` to `1.5` in the `filters` payload; after a
string `remove('volume')` the payload has no `'volume'` key; the payload's
keys are exactly the `_FILTERS` kinds present in the sink, in `_FILTERS`
order, hence each kind appears at most once and absent kinds are omitted. -/
theorem filter_sink_serialization (s : FilterSink) (oid : Nat) :
    mkVolumeFilter oid (3 / 2) =
      .ok ⟨"VolumeFilter", oid, "volume", .num (3 / 2)⟩ ∧
    ((sinkToJson (sinkAdd s ⟨"VolumeFilter", oid, "volume", .num (3 / 2)⟩)
      none).2).lookup "volume" = some (.num (3 / 2)) ∧
    ((sinkToJson (sinkRemove s (.byStr "volume")).1 none).2).lookup "volume" =
      none ∧
    (sinkToJson s none).2.map Prod.fst =
      FILTERS.filter (fun k => (s.filters.lookup k).isSome) ∧
    ((sinkToJson s none).2.map Prod.fst).Nodup := by
  have hraw : ∀ d : List (String × BFilter),
      (sinkToJson (⟨d⟩ : FilterSink) none).2 =
        FILTERS.filterMap (fun key =>
          match d.lookup key with
          | none => none
          | some f => some (key, f.raw)) := fun _ => rfl
  have hkeys : ∀ d : List (String × BFilter),
      (sinkToJson (⟨d⟩ : FilterSink) none).2.map Prod.fst =
        FILTERS.filter (fun k => (d.lookup k).isSome) := by
    intro d
    rw [hraw d, sinkToJson_filters_eq d]
    rw [map_fst_filterMap_keyed (fun k2 => (d.lookup k2).map BFilter.raw)
      FILTERS]
    apply List.filter_congr
    intro x _
    cases d.lookup x <;> rfl
  have hlook : ∀ (d : List (String × BFilter)) (k : String), k ∈ FILTERS →
      ((sinkToJson (⟨d⟩ : FilterSink) none).2).lookup k =
        (d.lookup k).map BFilter.raw := by
    intro d k hk
    rw [hraw d, sinkToJson_filters_eq d]
    rw [lookup_filterMap_keyed (fun k2 => (d.lookup k2).map BFilter.raw) k
      FILTERS (by decide)]
    rw [if_pos hk]
  have h4 : (sinkToJson s none).2.map Prod.fst =
      FILTERS.filter (fun k => (s.filters.lookup k).isSome) := hkeys s.filters
  refine ⟨?_, ?_, ?_, h4, ?_⟩
  · unfold mkVolumeFilter
    rw [if_neg (by norm_num), if_neg (by norm_num)]
  · rw [show sinkAdd s ⟨"VolumeFilter", oid, "volume", .num (3 / 2)⟩ =
      (⟨dictInsert s.filters "volume"
        ⟨"VolumeFilter", oid, "volume", .num (3 / 2)⟩⟩ : FilterSink) from rfl]
    rw [hlook _ "volume" (by decide), lookup_dictInsert_self]
    rfl
  · rw [show (sinkRemove s (.byStr "volume")).1 =
      (⟨dictErase s.filters "volume"⟩ : FilterSink) from rfl]
    rw [hlook _ "volume" (by decide), lookup_dictErase_self]
    rfl
  · rw [h4]
    exact List.Nodup.filter _ (by decide)

/-! ## C8 — bounded HTTP retry -/

theorem requestLoop_all_fail (resp : Nat → HResponse) :
    ∀ (fuel i : Nat), (∀ j, j < fuel → is2xx (resp (i + j)).status = false) →
    requestLoop resp i fuel = (.httpError (resp (i + fuel - 1)), i + fuel) := by
  intro fuel
  induction fuel with
  | zero =>
    intro i h
    simp [requestLoop]
  | succ f ih =>
    intro i h
    have h0 : is2xx (resp i).status = false := by
      simpa using h 0 (Nat.succ_pos f)
    have hrest := ih (i + 1) (fun j hj => by
      have := h (j + 1) (by omega)
      rwa [show i + (j + 1) = i + 1 + j by omega] at this)
    simp only [requestLoop, h0, Bool.false_eq_true, if_false]
    rw [hrest]
    rw [show i + 1 + f - 1 = i + (f + 1) - 1 by omega,
      show i + 1 + f = i + (f + 1) by omega]

theorem requestLoop_last_ok (resp : Nat → HResponse) :
    ∀ (fuel i : Nat), 1 ≤ fuel →
    (∀ j, j < fuel - 1 → is2xx (resp (i + j)).status = false) →
    is2xx (resp (i + fuel - 1)).status = true →
    requestLoop resp i fuel = (.ok (resp (i + fuel - 1)).body, i + fuel) := by
  intro fuel
  induction fuel with
  | zero =>
    intro i h1
    omega
  | succ f ih =>
    intro i _ hfail hok
    by_cases hf : f = 0
    · subst hf
      have he : i + 1 - 1 = i := by omega
      rw [he] at hok
      simp [requestLoop, hok, he]
    · have h0 : is2xx (resp i).status = false := by
        simpa using hfail 0 (by omega)
      have hrest := ih (i + 1) (by omega)
        (fun j hj => by
          have := hfail (j + 1) (by omega)
          rwa [show i + (j + 1) = i + 1 + j by omega] at this)
        (by rwa [show i + 1 + f - 1 = i + (f + 1) - 1 by omega])
      simp only [requestLoop, h0, Bool.false_eq_true, if_false]
      rw [hrest]
      rw [show i + 1 + f - 1 = i + (f + 1) - 1 by omega,
        show i + 1 + f = i + (f + 1) by omega]

/-- Claim C8 (confirmed): with `max_retries ≥ 1`, if the first
`max_retries - 1` attempts get non-2xx responses and the last gets a 2xx,
`request` returns the parsed payload of the last response after exactly
`max_retries` attempts; if every attempt gets a non-2xx response, it raises
`HTTPError` carrying the last response after exactly `max_retries`
attempts. -/
theorem http_retry_behavior (maxRetries : Nat) (resp : Nat → HResponse)
    (h1 : 1 ≤ maxRetries) :
    ((∀ i, i < maxRetries - 1 → is2xx (resp i).status = false) →
      is2xx (resp (maxRetries - 1)).status = true →
      request maxRetries resp = (.ok (resp (maxRetries - 1)).body,
        maxRetries)) ∧
    ((∀ i, i < maxRetries → is2xx (resp i).status = false) →
      request maxRetries resp = (.httpError (resp (maxRetries - 1)),
        maxRetries)) := by
  unfold request
  rw [if_neg (by omega)]
  constructor
  · intro hfail hok
    have := requestLoop_last_ok resp maxRetries 0 h1
      (fun j hj => by simpa using hfail j hj)
      (by simpa using hok)
    simpa using this
  · intro hfail
    have := requestLoop_all_fail resp maxRetries 0
      (fun j hj => by simpa using hfail j hj)
    simpa using this

/-- Witness for `http_retry_behavior` with two attempts. -/
theorem http_retry_behavior_witness :
    request 2 respW = (.ok "good", 2) ∧
    request 2 respB = (.httpError ⟨500, "err"⟩, 2) := by
  constructor
  · have h := (http_retry_behavior 2 respW (by omega)).1
      (fun i hi => by
        have hi0 : i = 0 := by omega
        subst hi0
        rfl)
      (by rfl)
    simpa [respW] using h
  · have h := (http_retry_behavior 2 respB (by omega)).2
      (fun i _ => by rfl)
    simpa [respB] using h

/-! ## C9 — get_player with a different session class -/

/-- Claim C9 (counterexample): requesting an existing guild's player with a
different class returns a freshly constructed instance of the requested
class, but the node's `_players` map still holds the *old* player — the map
entry is not the returned instance, refuting "replaces the stored Session in
place". -/
theorem get_player_swap_counterexample :
    (get_player c9state 1 "CustomPlayer" false).1 =
      some ⟨"CustomPlayer", 1⟩ ∧
    (get_player c9state 1 "CustomPlayer" false).2.players =
      [(1, ⟨"Player", 0⟩)] ∧
    (get_player c9state 1 "CustomPlayer" false).2.players.lookup 1 ≠
      some (⟨"CustomPlayer", 1⟩ : PlayerObj) := by
  refine ⟨rfl, rfl, by decide⟩

/-- Claim C9 (amended): when the stored player for the guild has a different
class than requested, `get_player` constructs and returns a fresh instance
of the requested class, but leaves the `_players` map unchanged (only the
object-allocation counter advances). -/
theorem get_player_swap_amended (st : NodeState) (g : Nat) (cls : String)
    (p : PlayerObj) (hp : st.players.lookup g = some p)
    (hne : p.cls ≠ cls) :
    get_player st g cls false =
      (some ⟨cls, st.nextOid⟩, { st with nextOid := st.nextOid + 1 }) := by
  simp [get_player, hp, hne]

/-- Witness for `get_player_swap_amended` at a concrete node state. -/
theorem get_player_swap_amended_witness :
    get_player c9state 1 "CustomPlayer" false =
      (some ⟨"CustomPlayer", 1⟩, ⟨[(1, ⟨"Player", 0⟩)], 2⟩) := by
  have h := get_player_swap_amended c9state 1 "CustomPlayer" ⟨"Player", 0⟩
    rfl (by decide)
  rw [h]
  rfl

/-! ## C10 — FilterSink.remove asymmetry -/

theorem dictIterDel_dirty (pr : BFilter → Bool)
    (remaining st : List (String × BFilter)) :
    dictIterDel pr remaining st true = (st, some .runtimeError) := by
  cases remaining <;> rfl

theorem dictIterDel_no_match (pr : BFilter → Bool) :
    ∀ (remaining st : List (String × BFilter)),
    (∀ kv ∈ remaining, pr kv.2 = false) →
    dictIterDel pr remaining st false = (st, none) := by
  intro remaining
  induction remaining with
  | nil =>
    intro st _
    rfl
  | cons kv rest ih =>
    intro st h
    obtain ⟨k, f⟩ := kv
    have hf : pr f = false := h (k, f) (by simp)
    simp only [dictIterDel, Bool.false_eq_true, if_false, hf]
    exact ih st (fun kv hkv => h kv (by simp [hkv]))

theorem dictIterDel_first_match (pr : BFilter → Bool) :
    ∀ (pre : List (String × BFilter)) (k0 : String) (f : BFilter)
    (post st : List (String × BFilter)),
    (∀ kv ∈ pre, pr kv.2 = false) → pr f = true →
    dictIterDel pr (pre ++ (k0, f) :: post) st false =
      (dictErase st k0, some .runtimeError) := by
  intro pre
  induction pre with
  | nil =>
    intro k0 f post st _ hf
    simp only [List.nil_append, dictIterDel, Bool.false_eq_true, if_false, hf,
      if_true]
    exact dictIterDel_dirty pr post (dictErase st k0)
  | cons kv rest ih =>
    intro k0 f post st hpre hf
    obtain ⟨k1, f1⟩ := kv
    have hf1 : pr f1 = false := hpre (k1, f1) (by simp)
    simp only [List.cons_append, dictIterDel, Bool.false_eq_true, if_false,
      hf1]
    exact ih k0 f post st (fun kv hkv => hpre kv (by simp [hkv])) hf

/-- Claim C10 (confirmed): `FilterSink.remove` with a string key never
raises (a missing key is a silent no-op); with a class or an instance
argument and a matching filter present, the first matching entry is deleted
from the dict and the loop then raises `RuntimeError` (the deletion has
already happened when the error escapes); with no matching filter it
returns normally and leaves the sink unchanged. -/
theorem filter_sink_remove_asymmetry (s : FilterSink) (k c : String)
    (o : Nat) :
    (sinkRemove s (.byStr k)).2 = none ∧
    (s.filters.lookup k = none → sinkRemove s (.byStr k) = (s, none)) ∧
    ((∀ kv ∈ s.filters, kv.2.cls ≠ c) →
      sinkRemove s (.byCls c) = (s, none)) ∧
    (∀ pre k0 f post, s.filters = pre ++ (k0, f) :: post → f.cls = c →
      (∀ kv ∈ pre, kv.2.cls ≠ c) →
      sinkRemove s (.byCls c) =
        (⟨dictErase s.filters k0⟩, some .runtimeError)) ∧
    ((∀ kv ∈ s.filters, kv.2.oid ≠ o) →
      sinkRemove s (.byObj o) = (s, none)) ∧
    (∀ pre k0 f post, s.filters = pre ++ (k0, f) :: post → f.oid = o →
      (∀ kv ∈ pre, kv.2.oid ≠ o) →
      sinkRemove s (.byObj o) =
        (⟨dictErase s.filters k0⟩, some .runtimeError)) := by
  obtain ⟨d⟩ := s
  refine ⟨rfl, ?_, ?_, ?_, ?_, ?_⟩
  · intro h
    simp only [sinkRemove]
    rw [dictErase_of_lookup_none k d h]
  · intro h
    simp only [sinkRemove]
    rw [dictIterDel_no_match (fun f => f.cls == c) d d
      (fun kv hkv => beq_eq_false_iff_ne.mpr (h kv hkv))]
  · intro pre k0 f post hsplit hfc hprem
    have hsplit2 : d = pre ++ (k0, f) :: post := hsplit
    simp only [sinkRemove]
    rw [hsplit2, dictIterDel_first_match (fun f => f.cls == c) pre k0 f post _
      (fun kv hkv => beq_eq_false_iff_ne.mpr (hprem kv hkv))
      (beq_iff_eq.mpr hfc)]
  · intro h
    simp only [sinkRemove]
    rw [dictIterDel_no_match (fun f => f.oid == o) d d
      (fun kv hkv => beq_eq_false_iff_ne.mpr (h kv hkv))]
  · intro pre k0 f post hsplit hoid hpre
    have hsplit2 : d = pre ++ (k0, f) :: post := hsplit
    simp only [sinkRemove]
    rw [hsplit2, dictIterDel_first_match (fun f => f.oid == o) pre k0 f post _
      (fun kv hkv => beq_eq_false_iff_ne.mpr (hpre kv hkv))
      (beq_iff_eq.mpr hoid)]

/-- Witness for `filter_sink_remove_asymmetry` on a one-filter sink. -/
theorem filter_sink_remove_asymmetry_witness :
    sinkRemove sinkW (.byCls "VolumeFilter") = (⟨[]⟩, some .runtimeError) ∧
    sinkRemove sinkW (.byStr "timescale") = (sinkW, none) ∧
    sinkRemove sinkW (.byObj 5) = (sinkW, none) := by
  have h := filter_sink_remove_asymmetry sinkW "timescale" "VolumeFilter" 5
  refine ⟨?_, ?_, ?_⟩
  · have h4 := h.2.2.2.1 [] "volume" ⟨"VolumeFilter", 0, "volume", .num 1⟩ []
      rfl rfl (by simp)
    rw [h4]
    rfl
  · exact h.2.1 rfl
  · exact h.2.2.2.2.1 (by decide)

end Obsidian
